import Mathlib

/-!  Verification of the JUCE `Path` segment store and builder
     (src/src/gui/graphics/geometry/juce_Path.cpp).

     The source stores a path as a flat, growable array of 32-bit floats
     (`data.elements` with length `numElements`) in which five reserved
     sentinel constants mark the start of each record; we model the array as
     `elements : List ℚ`.  Coordinates are modelled as exact rationals: all the
     properties considered here are about record structure, equality and
     min/max folds, which the float arithmetic of the source computes exactly
     whenever the values are representable; the five marker constants are small
     integers, exactly representable as floats, so every marker comparison
     made by the source carries over verbatim. -/

namespace Juce

/-- `Path::moveMarker = 100002.0f`. -/
def moveMarker : ℚ := 100002

/-- `Path::lineMarker = 100001.0f`. -/
def lineMarker : ℚ := 100001

/-- `Path::quadMarker = 100003.0f`. -/
def quadMarker : ℚ := 100003

/-- `Path::cubicMarker = 100004.0f`. -/
def cubicMarker : ℚ := 100004

/-- `Path::closeSubPathMarker = 100005.0f`. -/
def closeSubPathMarker : ℚ := 100005

/-- The `Path` value: the flat element array plus the incrementally maintained
    bounding box `pathXMin/pathXMax/pathYMin/pathYMax` and the winding flag. -/
structure Path where
  elements : List ℚ
  pathXMin : ℚ
  pathXMax : ℚ
  pathYMin : ℚ
  pathYMax : ℚ
  useNonZeroWinding : Bool
  deriving DecidableEq

/-- The default constructor `Path::Path`: no elements, zero bounds,
    non-zero winding. -/
def Path.empty : Path := ⟨[], 0, 0, 0, 0, true⟩

/-- `Path::startNewSubPath (x, y)`: appends a move record; on the very first
    record the bounding box is seeded with (x, y), otherwise (x, y) is folded
    into it with `jmin`/`jmax`. -/
def startNewSubPath (p : Path) (x y : ℚ) : Path :=
  if p.elements = [] then
    { elements := p.elements ++ [moveMarker, x, y]
      pathXMin := x, pathXMax := x, pathYMin := y, pathYMax := y
      useNonZeroWinding := p.useNonZeroWinding }
  else
    { elements := p.elements ++ [moveMarker, x, y]
      pathXMin := min p.pathXMin x, pathXMax := max p.pathXMax x
      pathYMin := min p.pathYMin y, pathYMax := max p.pathYMax y
      useNonZeroWinding := p.useNonZeroWinding }

/-- `Path::lineTo (x, y)`: if the store is empty, first `startNewSubPath (0, 0)`;
    then append a line record and fold (x, y) into the bounds. -/
def lineTo (p : Path) (x y : ℚ) : Path :=
  let q := if p.elements = [] then startNewSubPath p 0 0 else p
  { elements := q.elements ++ [lineMarker, x, y]
    pathXMin := min q.pathXMin x, pathXMax := max q.pathXMax x
    pathYMin := min q.pathYMin y, pathYMax := max q.pathYMax y
    useNonZeroWinding := q.useNonZeroWinding }

/-- `Path::quadraticTo (x1, y1, x2, y2)`; `jmin (a, b, c)` of the source is the
    three-way minimum, written here as nested binary `min`. -/
def quadraticTo (p : Path) (x1 y1 x2 y2 : ℚ) : Path :=
  let q := if p.elements = [] then startNewSubPath p 0 0 else p
  { elements := q.elements ++ [quadMarker, x1, y1, x2, y2]
    pathXMin := min q.pathXMin (min x1 x2), pathXMax := max q.pathXMax (max x1 x2)
    pathYMin := min q.pathYMin (min y1 y2), pathYMax := max q.pathYMax (max y1 y2)
    useNonZeroWinding := q.useNonZeroWinding }

/-- `Path::cubicTo (x1, y1, x2, y2, x3, y3)`. -/
def cubicTo (p : Path) (x1 y1 x2 y2 x3 y3 : ℚ) : Path :=
  let q := if p.elements = [] then startNewSubPath p 0 0 else p
  { elements := q.elements ++ [cubicMarker, x1, y1, x2, y2, x3, y3]
    pathXMin := min q.pathXMin (min x1 (min x2 x3))
    pathXMax := max q.pathXMax (max x1 (max x2 x3))
    pathYMin := min q.pathYMin (min y1 (min y2 y3))
    pathYMax := max q.pathYMax (max y1 (max y2 y3))
    useNonZeroWinding := q.useNonZeroWinding }

/-- `Path::closeSubPath`: appends a close marker when the store is non-empty
    and its last element (`data.elements [numElements - 1]`) is not already the
    close marker. -/
def closeSubPath (p : Path) : Path :=
  if p.elements ≠ [] ∧ p.elements.getLast? ≠ some closeSubPathMarker then
    { p with elements := p.elements ++ [closeSubPathMarker] }
  else p

/-- `Path::addRectangle (x, y, w, h)`: the corner coordinates are put in
    increasing order (the source initialises x1 = x, x2 = x + w and swaps them
    when w < 0, likewise for y/h); the bounds are seeded from the rectangle on
    an empty store and folded otherwise; then the records
    move, line, line, line, close are appended directly. -/
def addRectangle (p : Path) (x y w h : ℚ) : Path :=
  let x1 := if w < 0 then x + w else x
  let x2 := if w < 0 then x else x + w
  let y1 := if h < 0 then y + h else y
  let y2 := if h < 0 then y else y + h
  if p.elements = [] then
    { elements := p.elements ++ [moveMarker, x1, y2, lineMarker, x1, y1,
        lineMarker, x2, y1, lineMarker, x2, y2, closeSubPathMarker]
      pathXMin := x1, pathXMax := x2, pathYMin := y1, pathYMax := y2
      useNonZeroWinding := p.useNonZeroWinding }
  else
    { elements := p.elements ++ [moveMarker, x1, y2, lineMarker, x1, y1,
        lineMarker, x2, y1, lineMarker, x2, y2, closeSubPathMarker]
      pathXMin := min p.pathXMin x1, pathXMax := max p.pathXMax x2
      pathYMin := min p.pathYMin y1, pathYMax := max p.pathYMax y2
      useNonZeroWinding := p.useNonZeroWinding }

/-- `Path::clear`: empties the store and zeroes the four bound fields;
    `useNonZeroWinding` is not touched. -/
def clear (p : Path) : Path :=
  { p with elements := [], pathXMin := 0, pathXMax := 0, pathYMin := 0, pathYMax := 0 }

/-- `Path::setUsingNonZeroWinding`. -/
def setUsingNonZeroWinding (p : Path) (isNonZero : Bool) : Path :=
  { p with useNonZeroWinding := isNonZero }

/-- A JUCE `Rectangle<float>` (position plus size). -/
structure Rectangle where
  x : ℚ
  y : ℚ
  w : ℚ
  h : ℚ
  deriving DecidableEq

/-- Modelled from the spec: `juce_Rectangle.h` is not in src; a JUCE rectangle
    is empty when its width or height is not positive ("empty source bounds"
    in the spec's degenerate cases). -/
def Rectangle.isEmpty (r : Rectangle) : Prop := r.w ≤ 0 ∨ r.h ≤ 0

instance (r : Rectangle) : Decidable r.isEmpty :=
  inferInstanceAs (Decidable (_ ∨ _))

/-- `Path::getBounds`. -/
def getBounds (p : Path) : Rectangle :=
  ⟨p.pathXMin, p.pathYMin, p.pathXMax - p.pathXMin, p.pathYMax - p.pathYMin⟩

/-- The backward scan of `Path::getCurrentPosition`: starting at index `i`,
    `while (i >= 0) { if (data.elements[i] == moveMarker) { i += 2; break; } --i; }`.
    The guard `i >= 0` on a `size_t` is always true, so when no element equal
    to `moveMarker` is found down to index 0 the source wraps `i` around to
    `SIZE_MAX` and reads out of bounds; `none` models that read. -/
def scanBackForMove (es : List ℚ) : Nat → Option Nat
  | 0 => if es.get? 0 = some moveMarker then some 2 else none
  | i + 1 => if es.get? (i + 1) = some moveMarker then some (i + 3) else scanBackForMove es i

/-- `Path::getCurrentPosition`.  `size_t i = numElements - 1` wraps around to
    `SIZE_MAX` when the store is empty and the guard `data.elements[i]` then
    reads out of bounds; every such out-of-bounds (undefined-behaviour) read is
    modelled as a `none` result. -/
def getCurrentPosition (p : Path) : Option (ℚ × ℚ) :=
  if p.elements.length = 0 then none
  else
    let i := p.elements.length - 1
    let found : Option Nat :=
      if i > 0 ∧ p.elements.get? i = some closeSubPathMarker then scanBackForMove p.elements i
      else some i
    match found with
    | none => none
    | some i =>
      if i > 0 then
        match p.elements.get? (i - 1), p.elements.get? i with
        | some a, some b => some (a, b)
        | _, _ => none
      else some ((0 : ℚ), (0 : ℚ))

/-- The record stream borne by the flat element array: a move, line, quad or
    cubic record with its control/end points, or a close record. -/
inductive PathRecord where
  | move (x y : ℚ)
  | line (x y : ℚ)
  | quad (x1 y1 x2 y2 : ℚ)
  | cubic (x1 y1 x2 y2 x3 y3 : ℚ)
  | close
  deriving DecidableEq

/-- The flat element run of one record: its marker followed by its
    coordinates, exactly as the builder appends them. -/
def flatRec : PathRecord → List ℚ
  | .move x y => [moveMarker, x, y]
  | .line x y => [lineMarker, x, y]
  | .quad x1 y1 x2 y2 => [quadMarker, x1, y1, x2, y2]
  | .cubic x1 y1 x2 y2 x3 y3 => [cubicMarker, x1, y1, x2, y2, x3, y3]
  | .close => [closeSubPathMarker]

/-- Flat element array of a record list. -/
def flatRecs : List PathRecord → List ℚ
  | [] => []
  | r :: rs => flatRec r ++ flatRecs rs

/-- One step of reading the record stream back out of a flat element array:
    dispatch on a marker value exactly as every record-synchronised walk of
    the source (`writePathToStream`, `isEmpty`, `addPath`, the iterators)
    does, consuming the marker's fixed number of coordinates.  `none` on a
    value that is no marker or on a truncated record. -/
def parseStep (t : ℚ) (rest : List ℚ) : Option (PathRecord × List ℚ) :=
  if t = moveMarker then
    match rest with
    | x :: y :: r => some (.move x y, r)
    | _ => none
  else if t = lineMarker then
    match rest with
    | x :: y :: r => some (.line x y, r)
    | _ => none
  else if t = quadMarker then
    match rest with
    | x1 :: y1 :: x2 :: y2 :: r => some (.quad x1 y1 x2 y2, r)
    | _ => none
  else if t = cubicMarker then
    match rest with
    | x1 :: y1 :: x2 :: y2 :: x3 :: y3 :: r => some (.cubic x1 y1 x2 y2 x3 y3, r)
    | _ => none
  else if t = closeSubPathMarker then some (.close, rest)
  else none

/-- The full record stream borne by a flat element array: iterate `parseStep`
    until the array is exhausted. -/
def parseRecs : List ℚ → Option (List PathRecord)
  | [] => some []
  | t :: rest =>
    match h : parseStep t rest with
    | none => none
    | some (r, rest2) => (parseRecs rest2).map fun rs => r :: rs
termination_by l => l.length
decreasing_by
  have hlen : rest2.length ≤ rest.length := by
    simp only [parseStep] at h
    split_ifs at h <;> try (split at h)
    all_goals simp_all
    all_goals omega
  simp only [List.length_cons]
  omega

/-- The last flat element of a record: a close record ends with the close
    marker itself, every other record with its final y coordinate. -/
def recLastElem : PathRecord → ℚ
  | .move _ y => y
  | .line _ y => y
  | .quad _ _ _ y2 => y2
  | .cubic _ _ _ _ _ y3 => y3
  | .close => closeSubPathMarker

/-- One item of the binary stream: a tag byte or the bytes of one float.
    The framing is deterministic (the reader knows from each tag how many
    floats follow), so the stream is modelled as a list of these two token
    kinds, with float values carried exactly (the binary format round-trips
    floats bit-exactly). -/
inductive StreamByte where
  | ch (c : Char)
  | fl (v : ℚ)
  deriving DecidableEq

/-- One iteration of the element walk of `Path::writePathToStream`: read a
    marker, emit its tag byte and its coordinates as floats, and hand back the
    remaining elements.  A value that is no marker emits nothing and is
    skipped (the if/else-if chain of the source has no final else).  A
    truncated record would make the source read past `numElements`; the
    stream is cut short here — unreachable for any store built by the
    builder calls. -/
def writeStep (t : ℚ) (rest : List ℚ) : List StreamByte × List ℚ :=
  if t = moveMarker then
    match rest with
    | x :: y :: r => ([.ch 'm', .fl x, .fl y], r)
    | _ => ([], [])
  else if t = lineMarker then
    match rest with
    | x :: y :: r => ([.ch 'l', .fl x, .fl y], r)
    | _ => ([], [])
  else if t = quadMarker then
    match rest with
    | x1 :: y1 :: x2 :: y2 :: r => ([.ch 'q', .fl x1, .fl y1, .fl x2, .fl y2], r)
    | _ => ([], [])
  else if t = cubicMarker then
    match rest with
    | x1 :: y1 :: x2 :: y2 :: x3 :: y3 :: r =>
        ([.ch 'b', .fl x1, .fl y1, .fl x2, .fl y2, .fl x3, .fl y3], r)
    | _ => ([], [])
  else if t = closeSubPathMarker then ([.ch 'c'], rest)
  else ([], rest)

/-- The element walk of `Path::writePathToStream`: iterate `writeStep` over
    the flat element array. -/
def writeElements : List ℚ → List StreamByte
  | [] => []
  | t :: rest => (writeStep t rest).1 ++ writeElements (writeStep t rest).2
termination_by l => l.length
decreasing_by
  have hlen : (writeStep t rest).2.length ≤ rest.length := by
    simp only [writeStep]
    split_ifs <;> try split
    all_goals simp_all
    all_goals omega
  simp only [List.length_cons]
  omega

/-- `Path::writePathToStream`: the winding byte first, then the element walk,
    then the end-of-path byte. -/
def writePathToStream (p : Path) : List StreamByte :=
  .ch (if p.useNonZeroWinding then 'n' else 'z') :: (writeElements p.elements ++ [.ch 'e'])

/-- One iteration of the read loop of `Path::loadPathFromStream`: dispatch on
    a tag byte, replaying the corresponding builder call on the accumulating
    path and handing back the remaining stream; `none` ends the loop — on the
    byte e exactly as in the source, and on an ill-framed stream (a tag byte
    where a float is expected, which the encoder never produces and whose
    behaviour in the source is unspecified, it would consume raw bytes as
    float data).  An unknown byte is skipped (`jassertfalse; break` inside
    the switch just continues the loop). -/
def loadStep (c : Char) (rest : List StreamByte) (p : Path) : Option (Path × List StreamByte) :=
  if c = 'm' then
    match rest with
    | .fl x :: .fl y :: r => some (startNewSubPath p x y, r)
    | _ => none
  else if c = 'l' then
    match rest with
    | .fl x :: .fl y :: r => some (lineTo p x y, r)
    | _ => none
  else if c = 'q' then
    match rest with
    | .fl x1 :: .fl y1 :: .fl x2 :: .fl y2 :: r => some (quadraticTo p x1 y1 x2 y2, r)
    | _ => none
  else if c = 'b' then
    match rest with
    | .fl x1 :: .fl y1 :: .fl x2 :: .fl y2 :: .fl x3 :: .fl y3 :: r =>
        some (cubicTo p x1 y1 x2 y2 x3 y3, r)
    | _ => none
  else if c = 'c' then some (closeSubPath p, rest)
  else if c = 'n' then some ({ p with useNonZeroWinding := true }, rest)
  else if c = 'z' then some ({ p with useNonZeroWinding := false }, rest)
  else if c = 'e' then none
  else some (p, rest)

/-- The read loop of `Path::loadPathFromStream`: iterate `loadStep` until the
    stream is exhausted or the loop ends. -/
def loadLoop : List StreamByte → Path → Path
  | [], p => p
  | .fl _ :: _, p => p
  | .ch c :: rest, p =>
    match h : loadStep c rest p with
    | none => p
    | some (p2, r) => loadLoop r p2
termination_by l _ => l.length
decreasing_by
  have hlen : r.length ≤ rest.length := by
    simp only [loadStep] at h
    split_ifs at h <;> try (split at h)
    all_goals simp_all
    all_goals omega
  simp only [List.length_cons]
  omega

/-- `Path::loadPathFromStream`, reading a byte stream into the given path. -/
def loadPathFromStream (bytes : List StreamByte) (p : Path) : Path :=
  loadLoop bytes p

/-- Modelled from the spec: quadratic Bezier evaluation, used only by the
    flattening model below (the source's `PathFlatteningIterator` lives in
    juce_PathIterator.h/.cpp, which is not in src). -/
def bezier2At (p0 p1 p2 : ℚ × ℚ) (t : ℚ) : ℚ × ℚ :=
  ((1 - t) * (1 - t) * p0.1 + 2 * (1 - t) * t * p1.1 + t * t * p2.1,
   (1 - t) * (1 - t) * p0.2 + 2 * (1 - t) * t * p1.2 + t * t * p2.2)

/-- Modelled from the spec: cubic Bezier evaluation for the flattening model. -/
def bezier3At (p0 p1 p2 p3 : ℚ × ℚ) (t : ℚ) : ℚ × ℚ :=
  ((1 - t) * (1 - t) * (1 - t) * p0.1 + 3 * (1 - t) * (1 - t) * t * p1.1
      + 3 * (1 - t) * t * t * p2.1 + t * t * t * p3.1,
   (1 - t) * (1 - t) * (1 - t) * p0.2 + 3 * (1 - t) * (1 - t) * t * p1.2
      + 3 * (1 - t) * t * t * p2.2 + t * t * t * p3.2)

/-- Chords of a parametric curve sampled at k/8 for k = 0..8. -/
def curveChords (f : ℚ → ℚ × ℚ) : List ((ℚ × ℚ) × (ℚ × ℚ)) :=
  (List.range 8).map fun k => (f (k / 8), f ((k + 1) / 8))

/-- Modelled from the spec: the flattening of a record stream into straight
    edges ("flattens the path into line segments").  Line and close records
    contribute their exact segments; quadratic and cubic records are
    approximated by sampled chords (the source's `PathFlatteningIterator`,
    with its tolerance-driven recursive subdivision, is not in src).  The
    state is (subpath start, current point).  No theorem below depends on
    this model: the claims settled here rely only on the bounding-box
    fast-reject of `Path::contains`, which is in src. -/
def flattenRecs : List PathRecord → (ℚ × ℚ) → (ℚ × ℚ) → List ((ℚ × ℚ) × (ℚ × ℚ))
  | [], _, _ => []
  | .move x y :: rs, _, _ => flattenRecs rs (x, y) (x, y)
  | .line x y :: rs, s, c => (c, (x, y)) :: flattenRecs rs s (x, y)
  | .quad x1 y1 x2 y2 :: rs, s, c =>
      curveChords (bezier2At c (x1, y1) (x2, y2)) ++ flattenRecs rs s (x2, y2)
  | .cubic x1 y1 x2 y2 x3 y3 :: rs, s, c =>
      curveChords (bezier3At c (x1, y1) (x2, y2) (x3, y3)) ++ flattenRecs rs s (x3, y3)
  | .close :: rs, s, c => (c, s) :: flattenRecs rs s s

/-- The per-edge test of the crossing loop of `Path::contains`: the edge
    crosses the horizontal line at height y (half-open test) and its
    x-intersection lies at or left of x. -/
def edgeCrossesLeft (e : (ℚ × ℚ) × (ℚ × ℚ)) (x y : ℚ) : Prop :=
  ((e.1.2 ≤ y ∧ e.2.2 > y) ∨ (e.2.2 ≤ y ∧ e.1.2 > y)) ∧
    e.1.1 + (e.2.1 - e.1.1) * (y - e.1.2) / (e.2.2 - e.1.2) ≤ x

instance (e : (ℚ × ℚ) × (ℚ × ℚ)) (x y : ℚ) : Decidable (edgeCrossesLeft e x y) :=
  inferInstanceAs (Decidable (_ ∧ _))

/-- `Path::contains (x, y, tolerance)`.  The bounding-box fast-reject
    (`x <= pathXMin || x >= pathXMax || y <= pathYMin || y >= pathYMax`) is
    translated from src; the remainder — flatten, count positive and negative
    crossings left of x, then apply the winding rule — follows the spec, since
    `PathFlatteningIterator` is not in src (the fixed-depth chord sampling
    stands in for its tolerance-driven subdivision, so `tolerance` is unused
    here). -/
def contains (p : Path) (x y : ℚ) (tolerance : ℚ) : Bool :=
  if x ≤ p.pathXMin ∨ x ≥ p.pathXMax ∨ y ≤ p.pathYMin ∨ y ≥ p.pathYMax then false
  else
    let _ := tolerance
    let edges := flattenRecs ((parseRecs p.elements).getD []) (0, 0) (0, 0)
    let crossing := edges.filter fun e => decide (edgeCrossesLeft e x y)
    let pos := (crossing.filter fun e => decide (e.1.2 < e.2.2)).length
    let neg := (crossing.filter fun e => decide (¬ e.1.2 < e.2.2)).length
    if p.useNonZeroWinding then pos ≠ neg else (pos + neg) % 2 = 1

/-- Modelled from the spec: a JUCE `AffineTransform` (juce_AffineTransform.cpp
    is not in src) is the 2×3 matrix (mat00 mat01 mat02; mat10 mat11 mat12)
    acting as x ↦ mat00*x + mat01*y + mat02, y ↦ mat10*x + mat11*y + mat12. -/
structure AffineTransform where
  mat00 : ℚ
  mat01 : ℚ
  mat02 : ℚ
  mat10 : ℚ
  mat11 : ℚ
  mat12 : ℚ
  deriving DecidableEq

/-- `AffineTransform::identity`. -/
def AffineTransform.identity : AffineTransform := ⟨1, 0, 0, 0, 1, 0⟩

/-- `AffineTransform::translation (dx, dy)`. -/
def AffineTransform.translation (dx dy : ℚ) : AffineTransform := ⟨1, 0, dx, 0, 1, dy⟩

/-- `t.scaled (sx, sy)`: apply the scale after t. -/
def AffineTransform.scaled (t : AffineTransform) (sx sy : ℚ) : AffineTransform :=
  ⟨sx * t.mat00, sx * t.mat01, sx * t.mat02, sy * t.mat10, sy * t.mat11, sy * t.mat12⟩

/-- `t.translated (dx, dy)`: apply the translation after t. -/
def AffineTransform.translated (t : AffineTransform) (dx dy : ℚ) : AffineTransform :=
  { t with mat02 := t.mat02 + dx, mat12 := t.mat12 + dy }

/-- Modelled from the spec: of the JUCE `Justification` flag word (not in src)
    only the four flags tested by `getTransformToScaleToFit` are kept, as the
    outcomes of the four `testFlags` calls. -/
structure Justification where
  testLeft : Bool
  testRight : Bool
  testTop : Bool
  testBottom : Bool
  deriving DecidableEq

/-- `Path::getTransformToScaleToFit (x, y, w, h, preserveProportions,
    justification)`, translated from src.  Note that the source checks the
    degenerate cases (`w <= 0 || h <= 0 || bounds.isEmpty()`) only inside the
    `preserveProportions` branch; the other branch builds its transform
    unconditionally. -/
def getTransformToScaleToFit (p : Path) (x y w h : ℚ) (preserveProportions : Bool)
    (justification : Justification) : AffineTransform :=
  let bounds := getBounds p
  if preserveProportions then
    if w ≤ 0 ∨ h ≤ 0 ∨ bounds.isEmpty then AffineTransform.identity
    else
      let srcAspect := bounds.h / bounds.w
      let newW := if srcAspect > h / w then h / srcAspect else w
      let newH := if srcAspect > h / w then h else w * srcAspect
      let newXCentre :=
        if justification.testLeft then x + newW * (1 / 2)
        else if justification.testRight then x + w - newW * (1 / 2)
        else x + w * (1 / 2)
      let newYCentre :=
        if justification.testTop then y + newH * (1 / 2)
        else if justification.testBottom then y + h - newH * (1 / 2)
        else y + h * (1 / 2)
      ((AffineTransform.translation (bounds.w * (-(1 / 2)) - bounds.x)
            (bounds.h * (-(1 / 2)) - bounds.y)).scaled
          (newW / bounds.w) (newH / bounds.h)).translated newXCentre newYCentre
  else
    ((AffineTransform.translation (-bounds.x) (-bounds.y)).scaled
        (w / bounds.w) (h / bounds.h)).translated x y

/-- The builder calls considered by the claims: the five primitives,
    `addRectangle`, `clear` and the winding setter.  The remaining shape
    constructors of the source are compositions of these primitives (with
    trigonometrically computed arguments), so every store shape they can
    produce is covered by the primitives with arbitrary rational arguments;
    `addRectangle` is the one shape constructor that appends records
    directly. -/
inductive POp where
  | startNewSubPath (x y : ℚ)
  | lineTo (x y : ℚ)
  | quadraticTo (x1 y1 x2 y2 : ℚ)
  | cubicTo (x1 y1 x2 y2 x3 y3 : ℚ)
  | closeSubPath
  | addRectangle (x y w h : ℚ)
  | clear
  | setUsingNonZeroWinding (b : Bool)
  deriving DecidableEq

/-- Run one builder call. -/
def applyOp (p : Path) : POp → Path
  | .startNewSubPath x y => startNewSubPath p x y
  | .lineTo x y => lineTo p x y
  | .quadraticTo x1 y1 x2 y2 => quadraticTo p x1 y1 x2 y2
  | .cubicTo x1 y1 x2 y2 x3 y3 => cubicTo p x1 y1 x2 y2 x3 y3
  | .closeSubPath => closeSubPath p
  | .addRectangle x y w h => addRectangle p x y w h
  | .clear => clear p
  | .setUsingNonZeroWinding b => setUsingNonZeroWinding p b

/-- Run a sequence of builder calls. -/
def applyOps (ops : List POp) (p : Path) : Path := ops.foldl applyOp p

/-- The control and endpoint coordinates one builder call appends to the store
    of `p`, in append order, including the point of the move record that
    `lineTo`/`quadraticTo`/`cubicTo` implicitly prepend on an empty store and
    the swap-normalised corners of `addRectangle`.  Read off the append
    statements of each operation in src. -/
def opCoords (p : Path) : POp → List (ℚ × ℚ)
  | .startNewSubPath x y => [(x, y)]
  | .lineTo x y => (if p.elements = [] then [((0 : ℚ), (0 : ℚ))] else []) ++ [(x, y)]
  | .quadraticTo x1 y1 x2 y2 =>
      (if p.elements = [] then [((0 : ℚ), (0 : ℚ))] else []) ++ [(x1, y1), (x2, y2)]
  | .cubicTo x1 y1 x2 y2 x3 y3 =>
      (if p.elements = [] then [((0 : ℚ), (0 : ℚ))] else []) ++ [(x1, y1), (x2, y2), (x3, y3)]
  | .closeSubPath => []
  | .addRectangle x y w h =>
      let x1 := if w < 0 then x + w else x
      let x2 := if w < 0 then x else x + w
      let y1 := if h < 0 then y + h else y
      let y2 := if h < 0 then y else y + h
      [(x1, y2), (x1, y1), (x2, y1), (x2, y2)]
  | .clear => []
  | .setUsingNonZeroWinding _ => []

/-- All coordinates appended by a sequence of builder calls started on `p`. -/
def opsCoords : List POp → Path → List (ℚ × ℚ)
  | [], _ => []
  | op :: rest, p => opCoords p op ++ opsCoords rest (applyOp p op)

/-- The stores reachable by the record-appending walk of the builder: `t` is
    the flat store built so far, and the constructors mirror what each append
    requires of it — `lineTo`/`quadraticTo`/`cubicTo` records only ever land
    on a non-empty store (the implicit move fires first otherwise), and
    `closeSubPath` appends its record only when the store is non-empty with a
    last element different from the close marker. -/
inductive RecsOK : List ℚ → List PathRecord → Prop where
  | nil (t : List ℚ) : RecsOK t []
  | move (t : List ℚ) (x y : ℚ) (rs : List PathRecord) :
      RecsOK (t ++ [moveMarker, x, y]) rs → RecsOK t (.move x y :: rs)
  | line (t : List ℚ) (x y : ℚ) (rs : List PathRecord) :
      t ≠ [] → RecsOK (t ++ [lineMarker, x, y]) rs → RecsOK t (.line x y :: rs)
  | quad (t : List ℚ) (x1 y1 x2 y2 : ℚ) (rs : List PathRecord) :
      t ≠ [] → RecsOK (t ++ [quadMarker, x1, y1, x2, y2]) rs →
      RecsOK t (.quad x1 y1 x2 y2 :: rs)
  | cubic (t : List ℚ) (x1 y1 x2 y2 x3 y3 : ℚ) (rs : List PathRecord) :
      t ≠ [] → RecsOK (t ++ [cubicMarker, x1, y1, x2, y2, x3, y3]) rs →
      RecsOK t (.cubic x1 y1 x2 y2 x3 y3 :: rs)
  | close (t : List ℚ) (rs : List PathRecord) :
      t ≠ [] → t.getLast? ≠ some closeSubPathMarker →
      RecsOK (t ++ [closeSubPathMarker]) rs → RecsOK t (.close :: rs)

/-- Two adjacent records are never both close records. -/
def notTwoCloses (a b : PathRecord) : Prop := ¬(a = PathRecord.close ∧ b = PathRecord.close)

instance (a b : PathRecord) : Decidable (notTwoCloses a b) :=
  inferInstanceAs (Decidable (¬ _))

/-- The structural invariant of every store the public operations can reach:
    the record stream (when non-empty) begins with a move record, and no two
    adjacent records are both close records. -/
def GoodRecs (rs : List PathRecord) : Prop :=
  (∀ r, rs.head? = some r → ∃ x y, r = PathRecord.move x y) ∧ List.Chain' notTwoCloses rs

/-- A path whose flat element array is the flattening of a record stream
    satisfying `GoodRecs`. -/
def StoreOK (p : Path) : Prop := ∃ rs, p.elements = flatRecs rs ∧ GoodRecs rs

/-- Record-level byte output: what `writePathToStream`'s walk emits for each
    record of the stream. -/
def writeRecs : List PathRecord → List StreamByte
  | [] => []
  | .move x y :: rs => .ch 'm' :: .fl x :: .fl y :: writeRecs rs
  | .line x y :: rs => .ch 'l' :: .fl x :: .fl y :: writeRecs rs
  | .quad x1 y1 x2 y2 :: rs => .ch 'q' :: .fl x1 :: .fl y1 :: .fl x2 :: .fl y2 :: writeRecs rs
  | .cubic x1 y1 x2 y2 x3 y3 :: rs =>
      .ch 'b' :: .fl x1 :: .fl y1 :: .fl x2 :: .fl y2 :: .fl x3 :: .fl y3 :: writeRecs rs
  | .close :: rs => .ch 'c' :: writeRecs rs

/-! ## Basic facts about the builder appends -/

theorem elements_startNewSubPath (p : Path) (x y : ℚ) :
    (startNewSubPath p x y).elements = p.elements ++ [moveMarker, x, y] := by
  unfold startNewSubPath; split <;> rfl

theorem winding_startNewSubPath (p : Path) (x y : ℚ) :
    (startNewSubPath p x y).useNonZeroWinding = p.useNonZeroWinding := by
  unfold startNewSubPath; split <;> rfl

theorem lineTo_of_ne_nil (p : Path) (x y : ℚ) (h : p.elements ≠ []) :
    lineTo p x y =
      { elements := p.elements ++ [lineMarker, x, y]
        pathXMin := min p.pathXMin x, pathXMax := max p.pathXMax x
        pathYMin := min p.pathYMin y, pathYMax := max p.pathYMax y
        useNonZeroWinding := p.useNonZeroWinding } := by
  unfold lineTo; rw [if_neg h]

theorem quadraticTo_of_ne_nil (p : Path) (x1 y1 x2 y2 : ℚ) (h : p.elements ≠ []) :
    quadraticTo p x1 y1 x2 y2 =
      { elements := p.elements ++ [quadMarker, x1, y1, x2, y2]
        pathXMin := min p.pathXMin (min x1 x2), pathXMax := max p.pathXMax (max x1 x2)
        pathYMin := min p.pathYMin (min y1 y2), pathYMax := max p.pathYMax (max y1 y2)
        useNonZeroWinding := p.useNonZeroWinding } := by
  unfold quadraticTo; rw [if_neg h]

theorem cubicTo_of_ne_nil (p : Path) (x1 y1 x2 y2 x3 y3 : ℚ) (h : p.elements ≠ []) :
    cubicTo p x1 y1 x2 y2 x3 y3 =
      { elements := p.elements ++ [cubicMarker, x1, y1, x2, y2, x3, y3]
        pathXMin := min p.pathXMin (min x1 (min x2 x3))
        pathXMax := max p.pathXMax (max x1 (max x2 x3))
        pathYMin := min p.pathYMin (min y1 (min y2 y3))
        pathYMax := max p.pathYMax (max y1 (max y2 y3))
        useNonZeroWinding := p.useNonZeroWinding } := by
  unfold cubicTo; rw [if_neg h]

theorem elements_addRectangle (p : Path) (x y w h : ℚ) :
    (addRectangle p x y w h).elements =
      p.elements ++ [moveMarker, if w < 0 then x + w else x, if h < 0 then y else y + h,
        lineMarker, if w < 0 then x + w else x, if h < 0 then y + h else y,
        lineMarker, if w < 0 then x else x + w, if h < 0 then y + h else y,
        lineMarker, if w < 0 then x else x + w, if h < 0 then y else y + h,
        closeSubPathMarker] := by
  unfold addRectangle
  dsimp only []
  split_ifs <;> rfl

theorem closeSubPath_of_nil (p : Path) (h : p.elements = []) : closeSubPath p = p := by
  unfold closeSubPath
  rw [if_neg]
  intro hc
  exact hc.1 h

theorem closeSubPath_of_getLast (p : Path) (h : p.elements.getLast? = some closeSubPathMarker) :
    closeSubPath p = p := by
  unfold closeSubPath
  rw [if_neg]
  intro hc
  exact hc.2 h

/-! ## Claim theorems: the frame of `clear`, the empty-store read of
     `getCurrentPosition`, the implicit move, rectangle normalisation,
     the containment fast-reject and the scale-to-fit degenerate cases -/

/-- C9: `clear` empties the record stream and zeroes all four bounding-box
    fields, but leaves `useNonZeroWinding` at its prior value rather than
    restoring the default `true` of the constructor. -/
theorem C9_clear_frame (p : Path) :
    (clear p).elements = [] ∧ (clear p).pathXMin = 0 ∧ (clear p).pathXMax = 0 ∧
      (clear p).pathYMin = 0 ∧ (clear p).pathYMax = 0 ∧
      (clear p).useNonZeroWinding = p.useNonZeroWinding :=
  ⟨rfl, rfl, rfl, rfl, rfl, rfl⟩

/-- C5: evaluation of `getCurrentPosition` at the failing input, the freshly
    constructed empty path.  The source computes `size_t i = numElements - 1`,
    which wraps around to `SIZE_MAX` on the empty store, and then reads
    `data.elements[i]` out of bounds — undefined behaviour, modelled as
    `none` — where the claim (and the spec) promise the origin (0, 0). -/
theorem C5_getCurrentPosition_empty_oob : getCurrentPosition Path.empty = none := rfl

/-- C8: calling `lineTo`, `quadraticTo` or `cubicTo` on a path with an empty
    store first appends a move record at (0, 0) and then the requested
    record, and the result coincides with `startNewSubPath (0, 0)` followed
    by the same call. -/
theorem C8_implicit_move (p : Path) (x y a1 b1 a2 b2 c1 d1 c2 d2 c3 d3 : ℚ)
    (h : p.elements = []) :
    (lineTo p x y = lineTo (startNewSubPath p 0 0) x y ∧
      (lineTo p x y).elements = [moveMarker, 0, 0, lineMarker, x, y]) ∧
    (quadraticTo p a1 b1 a2 b2 = quadraticTo (startNewSubPath p 0 0) a1 b1 a2 b2 ∧
      (quadraticTo p a1 b1 a2 b2).elements = [moveMarker, 0, 0, quadMarker, a1, b1, a2, b2]) ∧
    (cubicTo p c1 d1 c2 d2 c3 d3 = cubicTo (startNewSubPath p 0 0) c1 d1 c2 d2 c3 d3 ∧
      (cubicTo p c1 d1 c2 d2 c3 d3).elements =
        [moveMarker, 0, 0, cubicMarker, c1, d1, c2, d2, c3, d3]) := by
  refine ⟨⟨?_, ?_⟩, ⟨?_, ?_⟩, ⟨?_, ?_⟩⟩ <;>
    simp [lineTo, quadraticTo, cubicTo, startNewSubPath, h]

/-- C8 witness at the empty path. -/
theorem C8_implicit_move_witness :
    lineTo Path.empty 3 4 = lineTo (startNewSubPath Path.empty 0 0) 3 4 ∧
      (lineTo Path.empty 3 4).elements = [moveMarker, 0, 0, lineMarker, 3, 4] :=
  (C8_implicit_move Path.empty 3 4 0 0 0 0 0 0 0 0 0 0 rfl).1

/-- C7: `addRectangle` with a negative width is interchangeable with the
    positive-oriented call on the swapped x edge, and likewise a negative
    height with the swapped y edge: record stream, bounds and winding of the
    resulting paths are all equal. -/
theorem C7_addRectangle_normalization (p : Path) (x y w h : ℚ) :
    (w < 0 → addRectangle p x y w h = addRectangle p (x + w) y (-w) h) ∧
    (h < 0 → addRectangle p x y w h = addRectangle p x (y + h) w (-h)) := by
  constructor
  · intro hw
    have h1 : ¬ (-w < 0) := by linarith
    have h2 : x + w + -w = x := by ring
    simp only [addRectangle, if_pos hw, if_neg h1, h2]
  · intro hh
    have h1 : ¬ (-h < 0) := by linarith
    have h2 : y + h + -h = y := by ring
    simp only [addRectangle, if_pos hh, if_neg h1, h2]

/-- C7 witness: the claim's example, `addRectangle (10, 10, -5, -5)` against
    `addRectangle (5, 5, 5, 5)` on the empty path. -/
theorem C7_addRectangle_normalization_witness :
    ((-5 : ℚ) < 0 ∧
      addRectangle Path.empty 10 10 (-5) (-5) = addRectangle Path.empty (10 + -5) 10 (-(-5)) (-5)) ∧
    addRectangle Path.empty 10 10 (-5) (-5) = addRectangle Path.empty 5 5 5 5 := by
  refine ⟨⟨by norm_num, (C7_addRectangle_normalization Path.empty 10 10 (-5) (-5)).1 (by norm_num)⟩, ?_⟩
  norm_num [addRectangle, Path.empty]

/-- C3: `contains` returns false, for every tolerance, at every point strictly
    outside the cached bounding box, and at every point whatsoever when the
    cached box has zero width or zero height (as on an empty or cleared
    path) — in all these cases the fast-reject guard fires before the segment
    stream is consulted. -/
theorem C3_contains_fast_reject (p : Path) (x y tolerance : ℚ)
    (hout : x < p.pathXMin ∨ x > p.pathXMax ∨ y < p.pathYMin ∨ y > p.pathYMax ∨
      p.pathXMin = p.pathXMax ∨ p.pathYMin = p.pathYMax) :
    contains p x y tolerance = false := by
  unfold contains
  rw [if_pos]
  rcases hout with h | h | h | h | h | h
  · exact Or.inl (le_of_lt h)
  · exact Or.inr (Or.inl (le_of_lt h))
  · exact Or.inr (Or.inr (Or.inl (le_of_lt h)))
  · exact Or.inr (Or.inr (Or.inr (le_of_lt h)))
  · rcases le_or_lt x p.pathXMin with h2 | h2
    · exact Or.inl h2
    · exact Or.inr (Or.inl (le_of_lt (h ▸ h2)))
  · rcases le_or_lt y p.pathYMin with h2 | h2
    · exact Or.inr (Or.inr (Or.inl h2))
    · exact Or.inr (Or.inr (Or.inr (le_of_lt (h ▸ h2))))

/-- C3 witness: the spec's example rectangle rejects (-1, 2.5), and the empty
    path — whose cached box has zero area — rejects the interior point
    (5, 2.5). -/
theorem C3_contains_fast_reject_witness :
    contains (addRectangle Path.empty 0 0 10 5) (-1) (5 / 2) 1 = false ∧
      contains Path.empty 5 (5 / 2) 1 = false :=
  ⟨C3_contains_fast_reject _ _ _ _ (by decide),
   C3_contains_fast_reject _ _ _ _ (by decide)⟩

/-- C4 counterexample: for `preserveProportions = false` the source performs
    no degeneracy check; with the target width -5 (degenerate per the claim)
    on a path with bounds (0, 0)–(10, 20) it returns the translate-then-scale
    transform with x scale -1/2, not the identity. -/
theorem C4_counterexample :
    ((-5 : ℚ) ≤ 0) ∧
      getTransformToScaleToFit (addRectangle Path.empty 0 0 10 20) 0 0 (-5) 5 false
          ⟨false, false, false, false⟩ ≠ AffineTransform.identity := by
  constructor
  · norm_num
  · norm_num [getTransformToScaleToFit, getBounds, addRectangle, Path.empty,
      AffineTransform.identity, AffineTransform.translation, AffineTransform.scaled,
      AffineTransform.translated]

/-- C4 (amended): with `preserveProportions = true`, every degenerate case —
    non-positive target width or height, or empty source bounds — returns the
    identity transform. -/
theorem C4_scale_to_fit_amended (p : Path) (x y w h : ℚ) (j : Justification)
    (hdeg : w ≤ 0 ∨ h ≤ 0 ∨ (getBounds p).isEmpty) :
    getTransformToScaleToFit p x y w h true j = AffineTransform.identity := by
  unfold getTransformToScaleToFit
  simp only [if_true, if_pos hdeg]

/-- C4 witness: zero target width on a concrete path. -/
theorem C4_scale_to_fit_amended_witness :
    getTransformToScaleToFit (addRectangle Path.empty 0 0 10 20) 1 2 0 5 true
        ⟨false, false, false, false⟩ = AffineTransform.identity :=
  C4_scale_to_fit_amended _ 1 2 0 5 _ (by norm_num)

/-! ## The bounds invariant (C2): min/max folds over appended coordinates -/

theorem foldl_min_rect (a u v : ℚ) (h : u ≤ v) :
    List.foldl min a [u, u, v, v] = min a u := by
  simp only [List.foldl, min_assoc, min_self]
  rw [min_eq_left h]

theorem foldl_max_rect (a u v : ℚ) (h : u ≤ v) :
    List.foldl max a [u, u, v, v] = max a v := by
  simp only [List.foldl, max_assoc, max_self]
  rw [max_eq_right h]

theorem foldl_min_rect_y (a s t : ℚ) (h : s ≤ t) :
    List.foldl min a [t, s, s, t] = min a s := by
  simp only [List.foldl, min_assoc, min_self]
  rw [min_eq_left h, min_comm t s, min_eq_left h]

theorem foldl_max_rect_y (a s t : ℚ) (h : s ≤ t) :
    List.foldl max a [t, s, s, t] = max a t := by
  simp only [List.foldl, max_assoc, max_self]
  rw [max_eq_right h, max_self]

theorem foldl_min_rect_seed (u v : ℚ) (h : u ≤ v) :
    List.foldl min u [u, v, v] = u := by
  simp only [List.foldl, min_assoc, min_self]
  rw [min_eq_left h]

theorem foldl_max_rect_seed (u v : ℚ) (h : u ≤ v) :
    List.foldl max u [u, v, v] = v := by
  simp only [List.foldl, max_assoc, max_self]
  rw [max_eq_right h]

theorem foldl_min_rect_seed_y (s t : ℚ) (h : s ≤ t) :
    List.foldl min t [s, s, t] = s := by
  simp only [List.foldl, min_assoc, min_self]
  rw [min_eq_left h, min_comm t s, min_eq_left h]

theorem foldl_max_rect_seed_y (s t : ℚ) (h : s ≤ t) :
    List.foldl max t [s, s, t] = t := by
  simp only [List.foldl, max_assoc, max_self]
  rw [max_eq_right h, max_self]

/-- One builder call on a non-empty store folds exactly its appended
    coordinates into the bounds and keeps the store non-empty
    (`clear` excepted). -/
theorem applyOp_bounds_step (op : POp) (p : Path) (hop : op ≠ POp.clear)
    (hne : p.elements ≠ []) :
    (applyOp p op).elements ≠ [] ∧
    (applyOp p op).pathXMin = List.foldl min p.pathXMin ((opCoords p op).map Prod.fst) ∧
    (applyOp p op).pathXMax = List.foldl max p.pathXMax ((opCoords p op).map Prod.fst) ∧
    (applyOp p op).pathYMin = List.foldl min p.pathYMin ((opCoords p op).map Prod.snd) ∧
    (applyOp p op).pathYMax = List.foldl max p.pathYMax ((opCoords p op).map Prod.snd) := by
  cases op with
  | startNewSubPath x y =>
      refine ⟨?_, ?_, ?_, ?_, ?_⟩ <;> simp [applyOp, startNewSubPath, opCoords, hne]
  | lineTo x y =>
      refine ⟨?_, ?_, ?_, ?_, ?_⟩ <;> simp [applyOp, lineTo, opCoords, hne]
  | quadraticTo x1 y1 x2 y2 =>
      refine ⟨?_, ?_, ?_, ?_, ?_⟩ <;>
        simp [applyOp, quadraticTo, opCoords, hne, min_assoc, max_assoc]
  | cubicTo x1 y1 x2 y2 x3 y3 =>
      refine ⟨?_, ?_, ?_, ?_, ?_⟩ <;>
        simp [applyOp, cubicTo, opCoords, hne, min_assoc, max_assoc]
  | closeSubPath =>
      have hb : applyOp p POp.closeSubPath = closeSubPath p := rfl
      refine ⟨?_, ?_, ?_, ?_, ?_⟩ <;> rw [hb] <;> unfold closeSubPath <;> split <;>
        simp [opCoords, hne]
  | addRectangle x y w h =>
      have hx : (if w < 0 then x + w else x) ≤ (if w < 0 then x else x + w) := by
        split_ifs with hw <;> linarith
      have hy : (if h < 0 then y + h else y) ≤ (if h < 0 then y else y + h) := by
        split_ifs with hh <;> linarith
      refine ⟨?_, ?_, ?_, ?_, ?_⟩
      · simp [applyOp, addRectangle, hne]
      · simp only [applyOp, addRectangle, opCoords, if_neg hne, List.map]
        rw [foldl_min_rect _ _ _ hx]
      · simp only [applyOp, addRectangle, opCoords, if_neg hne, List.map]
        rw [foldl_max_rect _ _ _ hx]
      · simp only [applyOp, addRectangle, opCoords, if_neg hne, List.map]
        rw [foldl_min_rect_y _ _ _ hy]
      · simp only [applyOp, addRectangle, opCoords, if_neg hne, List.map]
        rw [foldl_max_rect_y _ _ _ hy]
  | clear => exact absurd rfl hop
  | setUsingNonZeroWinding b =>
      refine ⟨?_, ?_, ?_, ?_, ?_⟩ <;> simp [applyOp, setUsingNonZeroWinding, opCoords, hne]

/-- On a path with a non-empty store, any `clear`-free sequence of builder
    calls folds exactly the appended coordinates into the bounds. -/
theorem applyOps_bounds_fold (ops : List POp) :
    ∀ p : Path, POp.clear ∉ ops → p.elements ≠ [] →
    (applyOps ops p).pathXMin = List.foldl min p.pathXMin ((opsCoords ops p).map Prod.fst) ∧
    (applyOps ops p).pathXMax = List.foldl max p.pathXMax ((opsCoords ops p).map Prod.fst) ∧
    (applyOps ops p).pathYMin = List.foldl min p.pathYMin ((opsCoords ops p).map Prod.snd) ∧
    (applyOps ops p).pathYMax = List.foldl max p.pathYMax ((opsCoords ops p).map Prod.snd) := by
  induction ops with
  | nil => exact fun p _ _ => ⟨rfl, rfl, rfl, rfl⟩
  | cons op rest ih =>
    intro p hnc hne
    have hnc' : POp.clear ∉ rest := fun hm => hnc (List.mem_cons_of_mem _ hm)
    have hopnc : op ≠ POp.clear := fun he => hnc (he ▸ List.mem_cons_self _ _)
    obtain ⟨hne', h1, h2, h3, h4⟩ := applyOp_bounds_step op p hopnc hne
    obtain ⟨g1, g2, g3, g4⟩ := ih (applyOp p op) hnc' hne'
    have happly : applyOps (op :: rest) p = applyOps rest (applyOp p op) := rfl
    have hcoords : opsCoords (op :: rest) p = opCoords p op ++ opsCoords rest (applyOp p op) := rfl
    rw [happly, hcoords]
    refine ⟨?_, ?_, ?_, ?_⟩ <;>
      simp only [List.map_append, List.foldl_append, ← h1, ← h2, ← h3, ← h4, g1, g2, g3, g4]

set_option maxHeartbeats 1000000 in
/-- The first coordinate-appending call on an empty store seeds the bounds:
    they equal the fold of the call's own coordinates started from its first
    appended point. -/
theorem applyOp_bounds_seed (op : POp) (p : Path) (c : ℚ × ℚ) (cs : List (ℚ × ℚ))
    (hn : p.elements = []) (hc : opCoords p op = c :: cs) :
    (applyOp p op).elements ≠ [] ∧
    (applyOp p op).pathXMin = List.foldl min c.1 (cs.map Prod.fst) ∧
    (applyOp p op).pathXMax = List.foldl max c.1 (cs.map Prod.fst) ∧
    (applyOp p op).pathYMin = List.foldl min c.2 (cs.map Prod.snd) ∧
    (applyOp p op).pathYMax = List.foldl max c.2 (cs.map Prod.snd) := by
  cases op with
  | startNewSubPath x y =>
      simp only [opCoords, List.cons.injEq] at hc
      obtain ⟨hc1, hc2⟩ := hc
      subst hc1; subst hc2
      refine ⟨?_, ?_, ?_, ?_, ?_⟩ <;> simp [applyOp, startNewSubPath, hn]
  | lineTo x y =>
      simp only [opCoords, hn, if_pos, List.cons_append, List.nil_append,
        List.cons.injEq] at hc
      obtain ⟨hc1, hc2⟩ := hc
      subst hc1; subst hc2
      refine ⟨?_, ?_, ?_, ?_, ?_⟩ <;> simp [applyOp, lineTo, startNewSubPath, hn]
  | quadraticTo x1 y1 x2 y2 =>
      simp only [opCoords, hn, if_pos, List.cons_append, List.nil_append,
        List.cons.injEq] at hc
      obtain ⟨hc1, hc2⟩ := hc
      subst hc1; subst hc2
      refine ⟨?_, ?_, ?_, ?_, ?_⟩ <;>
        simp [applyOp, quadraticTo, startNewSubPath, hn, min_assoc, max_assoc]
  | cubicTo x1 y1 x2 y2 x3 y3 =>
      simp only [opCoords, hn, if_pos, List.cons_append, List.nil_append,
        List.cons.injEq] at hc
      obtain ⟨hc1, hc2⟩ := hc
      subst hc1; subst hc2
      refine ⟨?_, ?_, ?_, ?_, ?_⟩ <;>
        simp [applyOp, cubicTo, startNewSubPath, hn, min_assoc, max_assoc]
  | closeSubPath => simp [opCoords] at hc
  | addRectangle x y w h =>
      have hx : (if w < 0 then x + w else x) ≤ (if w < 0 then x else x + w) := by
        split_ifs with hw <;> linarith
      have hy : (if h < 0 then y + h else y) ≤ (if h < 0 then y else y + h) := by
        split_ifs with hh <;> linarith
      simp only [opCoords, List.cons.injEq] at hc
      obtain ⟨hc1, hc2⟩ := hc
      subst hc1; subst hc2
      refine ⟨?_, ?_, ?_, ?_, ?_⟩
      · simp [applyOp, addRectangle, hn]
      · simp only [applyOp, addRectangle, if_pos hn, List.map]
        rw [foldl_min_rect_seed _ _ hx]
      · simp only [applyOp, addRectangle, if_pos hn, List.map]
        rw [foldl_max_rect_seed _ _ hx]
      · simp only [applyOp, addRectangle, if_pos hn, List.map]
        rw [foldl_min_rect_seed_y _ _ hy]
      · simp only [applyOp, addRectangle, if_pos hn, List.map]
        rw [foldl_max_rect_seed_y _ _ hy]
  | clear => simp [opCoords] at hc
  | setUsingNonZeroWinding b => simp [opCoords] at hc

/-- C2: after any `clear`-free sequence of builder calls on an initially empty
    path, each stored bound field equals the exact min/max fold over all
    control and endpoint coordinates appended so far (implicit move records
    included), seeded from the first appended point rather than from a zero
    origin. -/
theorem C2_bounds_invariant (ops : List POp) (c : ℚ × ℚ) (cs : List (ℚ × ℚ))
    (hnoclear : POp.clear ∉ ops)
    (hcoords : opsCoords ops Path.empty = c :: cs) :
    (applyOps ops Path.empty).pathXMin = List.foldl min c.1 (cs.map Prod.fst) ∧
    (applyOps ops Path.empty).pathXMax = List.foldl max c.1 (cs.map Prod.fst) ∧
    (applyOps ops Path.empty).pathYMin = List.foldl min c.2 (cs.map Prod.snd) ∧
    (applyOps ops Path.empty).pathYMax = List.foldl max c.2 (cs.map Prod.snd) := by
  suffices H : ∀ ops : List POp, ∀ p : Path, POp.clear ∉ ops → p.elements = [] →
      ∀ c : ℚ × ℚ, ∀ cs : List (ℚ × ℚ), opsCoords ops p = c :: cs →
      (applyOps ops p).pathXMin = List.foldl min c.1 (cs.map Prod.fst) ∧
      (applyOps ops p).pathXMax = List.foldl max c.1 (cs.map Prod.fst) ∧
      (applyOps ops p).pathYMin = List.foldl min c.2 (cs.map Prod.snd) ∧
      (applyOps ops p).pathYMax = List.foldl max c.2 (cs.map Prod.snd) by
    exact H ops Path.empty hnoclear rfl c cs hcoords
  intro ops
  induction ops with
  | nil => intro p _ _ c cs hc; simp [opsCoords] at hc
  | cons op rest ih =>
    intro p hnc hn c cs hc
    have hnc' : POp.clear ∉ rest := fun hm => hnc (List.mem_cons_of_mem _ hm)
    have hopnc : op ≠ POp.clear := fun he => hnc (he ▸ List.mem_cons_self _ _)
    have hcoords1 : opsCoords (op :: rest) p = opCoords p op ++ opsCoords rest (applyOp p op) :=
      rfl
    have happly : applyOps (op :: rest) p = applyOps rest (applyOp p op) := rfl
    rw [happly]
    rcases hfirst : opCoords p op with _ | ⟨c0, cs0⟩
    · -- the first call appended nothing: it left the store empty and
      -- unchanged up to the winding flag, so recurse
      have hsame : (applyOp p op).elements = [] ∧
          (applyOp p op).pathXMin = p.pathXMin ∧ (applyOp p op).pathXMax = p.pathXMax ∧
          (applyOp p op).pathYMin = p.pathYMin ∧ (applyOp p op).pathYMax = p.pathYMax := by
        cases op with
        | startNewSubPath x y => simp [opCoords] at hfirst
        | lineTo x y => simp [opCoords] at hfirst
        | quadraticTo x1 y1 x2 y2 => simp [opCoords] at hfirst
        | cubicTo x1 y1 x2 y2 x3 y3 => simp [opCoords] at hfirst
        | closeSubPath =>
            have : applyOp p POp.closeSubPath = p := closeSubPath_of_nil p hn
            rw [this]; exact ⟨hn, rfl, rfl, rfl, rfl⟩
        | addRectangle x y w h => simp [opCoords] at hfirst
        | clear => exact absurd rfl hopnc
        | setUsingNonZeroWinding b =>
            exact ⟨hn, rfl, rfl, rfl, rfl⟩
      rw [hcoords1, hfirst, List.nil_append] at hc
      exact ih (applyOp p op) hnc' hsame.1 c cs hc
    · -- the first call seeds the bounds; the rest folds on a non-empty store
      rw [hcoords1, hfirst, List.cons_append] at hc
      injection hc with hc1 hc2
      subst hc1
      subst hc2
      obtain ⟨hne', s1, s2, s3, s4⟩ := applyOp_bounds_seed op p c0 cs0 hn hfirst
      obtain ⟨f1, f2, f3, f4⟩ := applyOps_bounds_fold rest (applyOp p op) hnc' hne'
      refine ⟨?_, ?_, ?_, ?_⟩ <;>
        simp only [List.map_append, List.foldl_append, ← s1, ← s2, ← s3, ← s4, f1, f2, f3, f4]

/-! ## The record stream of a reachable store (C6, C10) -/

theorem flatRec_ne_nil (r : PathRecord) : flatRec r ≠ [] := by
  cases r <;> simp [flatRec]

theorem flatRecs_nil_iff (rs : List PathRecord) : flatRecs rs = [] ↔ rs = [] := by
  cases rs with
  | nil => simp [flatRecs]
  | cons r rs => simp [flatRecs, flatRec_ne_nil]

theorem flatRecs_append (rs ss : List PathRecord) :
    flatRecs (rs ++ ss) = flatRecs rs ++ flatRecs ss := by
  induction rs with
  | nil => simp [flatRecs]
  | cons r rs ih => simp [flatRecs, ih]

theorem getLast?_flatRecs_concat (rs : List PathRecord) (r : PathRecord) :
    (flatRecs (rs ++ [r])).getLast? = some (recLastElem r) := by
  rw [flatRecs_append]
  cases r <;> simp [flatRecs, flatRec, recLastElem, List.getLast?_append]

theorem parseRecs_move (x y : ℚ) (l : List ℚ) :
    parseRecs (moveMarker :: x :: y :: l) =
      (parseRecs l).map fun rs => PathRecord.move x y :: rs := by
  rw [parseRecs]
  have hs : parseStep moveMarker (x :: y :: l) = some (.move x y, l) := by
    simp [parseStep]
  rw [hs]

theorem parseRecs_line (x y : ℚ) (l : List ℚ) :
    parseRecs (lineMarker :: x :: y :: l) =
      (parseRecs l).map fun rs => PathRecord.line x y :: rs := by
  rw [parseRecs]
  have hs : parseStep lineMarker (x :: y :: l) = some (.line x y, l) := by
    norm_num [parseStep, lineMarker, moveMarker]
  rw [hs]

theorem parseRecs_quad (x1 y1 x2 y2 : ℚ) (l : List ℚ) :
    parseRecs (quadMarker :: x1 :: y1 :: x2 :: y2 :: l) =
      (parseRecs l).map fun rs => PathRecord.quad x1 y1 x2 y2 :: rs := by
  rw [parseRecs]
  have hs : parseStep quadMarker (x1 :: y1 :: x2 :: y2 :: l) =
      some (.quad x1 y1 x2 y2, l) := by
    norm_num [parseStep, quadMarker, moveMarker, lineMarker]
  rw [hs]

theorem parseRecs_cubic (x1 y1 x2 y2 x3 y3 : ℚ) (l : List ℚ) :
    parseRecs (cubicMarker :: x1 :: y1 :: x2 :: y2 :: x3 :: y3 :: l) =
      (parseRecs l).map fun rs => PathRecord.cubic x1 y1 x2 y2 x3 y3 :: rs := by
  rw [parseRecs]
  have hs : parseStep cubicMarker (x1 :: y1 :: x2 :: y2 :: x3 :: y3 :: l) =
      some (.cubic x1 y1 x2 y2 x3 y3, l) := by
    norm_num [parseStep, cubicMarker, moveMarker, lineMarker, quadMarker]
  rw [hs]

theorem parseRecs_close (l : List ℚ) :
    parseRecs (closeSubPathMarker :: l) =
      (parseRecs l).map fun rs => PathRecord.close :: rs := by
  rw [parseRecs]
  have hs : parseStep closeSubPathMarker l = some (.close, l) := by
    norm_num [parseStep, closeSubPathMarker, moveMarker, lineMarker, quadMarker, cubicMarker]
  rw [hs]

theorem parse_flatRecs (rs : List PathRecord) : parseRecs (flatRecs rs) = some rs := by
  induction rs with
  | nil => rw [show flatRecs [] = [] from rfl, parseRecs]
  | cons r rs ih =>
    cases r <;>
      simp [flatRecs, flatRec, parseRecs_move, parseRecs_line, parseRecs_quad,
        parseRecs_cubic, parseRecs_close, ih]

theorem flatRecs_inj {rs1 rs2 : List PathRecord} (h : flatRecs rs1 = flatRecs rs2) :
    rs1 = rs2 := by
  have h1 := parse_flatRecs rs1
  rw [h, parse_flatRecs rs2] at h1
  injection h1 with h2
  exact h2.symm

theorem goodRecs_append (rs bs : List PathRecord) (h : GoodRecs rs)
    (hch : List.Chain' notTwoCloses bs)
    (hfirst : rs = [] → ∀ r, bs.head? = some r → ∃ x y, r = PathRecord.move x y)
    (hcross : ∀ a, rs.getLast? = some a → ∀ b, bs.head? = some b → notTwoCloses a b) :
    GoodRecs (rs ++ bs) := by
  obtain ⟨hhead, hchain⟩ := h
  constructor
  · intro r hr
    cases rs with
    | nil => exact hfirst rfl r (by simpa using hr)
    | cons a rs' =>
      have ha : a = r := by simpa using hr
      exact ha ▸ hhead a rfl
  · exact List.Chain'.append hchain hch fun a ha b hb => hcross a ha b hb

/-- Every public operation modelled here preserves the structural invariant
    of the store: its record stream begins with a move and never holds two
    adjacent close records. -/
theorem storeOK_applyOp (p : Path) (op : POp) (h : StoreOK p) : StoreOK (applyOp p op) := by
  obtain ⟨rs, hflat, hgood⟩ := h
  cases op with
  | startNewSubPath x y =>
    refine ⟨rs ++ [.move x y], ?_, ?_⟩
    · rw [show applyOp p (POp.startNewSubPath x y) = startNewSubPath p x y from rfl,
        elements_startNewSubPath, hflat, flatRecs_append]
      simp [flatRecs, flatRec]
    · refine goodRecs_append rs _ hgood (List.chain'_singleton _) ?_ ?_
      · intro _ r hr
        have hm : PathRecord.move x y = r := by simpa using hr
        exact ⟨x, y, hm.symm⟩
      · intro a _ b hb
        have hbm : PathRecord.move x y = b := by simpa using hb
        subst hbm
        simp [notTwoCloses]
  | lineTo x y =>
    by_cases hn : p.elements = []
    · refine ⟨[.move 0 0, .line x y], ?_, ?_⟩
      · simp [applyOp, lineTo, startNewSubPath, hn, flatRecs, flatRec]
      · constructor
        · intro r hr
          have hm : PathRecord.move 0 0 = r := by simpa using hr
          exact ⟨0, 0, hm.symm⟩
        · simp [List.chain'_cons, notTwoCloses]
    · have hrsne : rs ≠ [] := fun he => hn (by rw [hflat, he]; rfl)
      refine ⟨rs ++ [.line x y], ?_, ?_⟩
      · rw [show applyOp p (POp.lineTo x y) = lineTo p x y from rfl,
          lineTo_of_ne_nil p x y hn, hflat, flatRecs_append]
        simp [flatRecs, flatRec]
      · refine goodRecs_append rs _ hgood (List.chain'_singleton _) ?_ ?_
        · exact fun he => absurd he hrsne
        · intro a _ b hb
          have hbm : PathRecord.line x y = b := by simpa using hb
          subst hbm
          simp [notTwoCloses]
  | quadraticTo x1 y1 x2 y2 =>
    by_cases hn : p.elements = []
    · refine ⟨[.move 0 0, .quad x1 y1 x2 y2], ?_, ?_⟩
      · simp [applyOp, quadraticTo, startNewSubPath, hn, flatRecs, flatRec]
      · constructor
        · intro r hr
          have hm : PathRecord.move 0 0 = r := by simpa using hr
          exact ⟨0, 0, hm.symm⟩
        · simp [List.chain'_cons, notTwoCloses]
    · have hrsne : rs ≠ [] := fun he => hn (by rw [hflat, he]; rfl)
      refine ⟨rs ++ [.quad x1 y1 x2 y2], ?_, ?_⟩
      · rw [show applyOp p (POp.quadraticTo x1 y1 x2 y2) = quadraticTo p x1 y1 x2 y2 from rfl,
          quadraticTo_of_ne_nil p x1 y1 x2 y2 hn, hflat, flatRecs_append]
        simp [flatRecs, flatRec]
      · refine goodRecs_append rs _ hgood (List.chain'_singleton _) ?_ ?_
        · exact fun he => absurd he hrsne
        · intro a _ b hb
          have hbm : PathRecord.quad x1 y1 x2 y2 = b := by simpa using hb
          subst hbm
          simp [notTwoCloses]
  | cubicTo x1 y1 x2 y2 x3 y3 =>
    by_cases hn : p.elements = []
    · refine ⟨[.move 0 0, .cubic x1 y1 x2 y2 x3 y3], ?_, ?_⟩
      · simp [applyOp, cubicTo, startNewSubPath, hn, flatRecs, flatRec]
      · constructor
        · intro r hr
          have hm : PathRecord.move 0 0 = r := by simpa using hr
          exact ⟨0, 0, hm.symm⟩
        · simp [List.chain'_cons, notTwoCloses]
    · have hrsne : rs ≠ [] := fun he => hn (by rw [hflat, he]; rfl)
      refine ⟨rs ++ [.cubic x1 y1 x2 y2 x3 y3], ?_, ?_⟩
      · rw [show applyOp p (POp.cubicTo x1 y1 x2 y2 x3 y3) = cubicTo p x1 y1 x2 y2 x3 y3 from
          rfl, cubicTo_of_ne_nil p x1 y1 x2 y2 x3 y3 hn, hflat, flatRecs_append]
        simp [flatRecs, flatRec]
      · refine goodRecs_append rs _ hgood (List.chain'_singleton _) ?_ ?_
        · exact fun he => absurd he hrsne
        · intro a _ b hb
          have hbm : PathRecord.cubic x1 y1 x2 y2 x3 y3 = b := by simpa using hb
          subst hbm
          simp [notTwoCloses]
  | closeSubPath =>
    by_cases hg : p.elements ≠ [] ∧ p.elements.getLast? ≠ some closeSubPathMarker
    · have heq : applyOp p POp.closeSubPath = { p with elements := p.elements ++ [closeSubPathMarker] } := by
        show closeSubPath p = _
        unfold closeSubPath
        rw [if_pos hg]
      have hrsne : rs ≠ [] := fun he => hg.1 (by rw [hflat, he]; rfl)
      have hlast : rs.getLast? ≠ some PathRecord.close := by
        intro hl
        obtain ⟨rs', hrs'⟩ := List.getLast?_eq_some_iff.mp hl
        apply hg.2
        rw [hflat, hrs', getLast?_flatRecs_concat]
        rfl
      refine ⟨rs ++ [.close], ?_, ?_⟩
      · rw [heq]
        simp only []
        rw [hflat, flatRecs_append]
        simp [flatRecs, flatRec]
      · refine goodRecs_append rs _ hgood (List.chain'_singleton _) ?_ ?_
        · exact fun he => absurd he hrsne
        · intro a ha b hb
          have hbm : PathRecord.close = b := by simpa using hb
          subst hbm
          intro hc
          exact hlast (by rw [ha, hc.1])
    · have heq : applyOp p POp.closeSubPath = p := by
        show closeSubPath p = p
        unfold closeSubPath
        rw [if_neg hg]
      rw [heq]
      exact ⟨rs, hflat, hgood⟩
  | addRectangle x y w h =>
    refine ⟨rs ++ [.move (if w < 0 then x + w else x) (if h < 0 then y else y + h),
      .line (if w < 0 then x + w else x) (if h < 0 then y + h else y),
      .line (if w < 0 then x else x + w) (if h < 0 then y + h else y),
      .line (if w < 0 then x else x + w) (if h < 0 then y else y + h), .close], ?_, ?_⟩
    · rw [show applyOp p (POp.addRectangle x y w h) = addRectangle p x y w h from rfl,
        elements_addRectangle, hflat, flatRecs_append]
      simp [flatRecs, flatRec]
    · refine goodRecs_append rs _ hgood ?_ ?_ ?_
      · simp [List.chain'_cons, notTwoCloses]
      · intro _ r hr
        have hm : PathRecord.move (if w < 0 then x + w else x)
            (if h < 0 then y else y + h) = r := by simpa using hr
        exact ⟨_, _, hm.symm⟩
      · intro a _ b hb
        have hbm : PathRecord.move (if w < 0 then x + w else x)
            (if h < 0 then y else y + h) = b := by simpa using hb
        subst hbm
        simp [notTwoCloses]
  | clear =>
    refine ⟨[], rfl, ?_, List.chain'_nil⟩
    intro r hr
    simp at hr
  | setUsingNonZeroWinding b => exact ⟨rs, hflat, hgood⟩

theorem storeOK_applyOps (ops : List POp) (p : Path) (h : StoreOK p) :
    StoreOK (applyOps ops p) := by
  induction ops generalizing p with
  | nil => exact h
  | cons op rest ih => exact ih (applyOp p op) (storeOK_applyOp p op h)

theorem storeOK_empty : StoreOK Path.empty :=
  ⟨[], rfl, fun r hr => by simp at hr, List.chain'_nil⟩

/-- C6: for every path reachable by the public builder calls, the record
    stream never holds two consecutive close records, and whenever its last
    record is a close record, `closeSubPath` leaves the path unchanged. -/
theorem C6_close_idempotent (ops : List POp) (rs : List PathRecord)
    (hparse : (applyOps ops Path.empty).elements = flatRecs rs) :
    List.Chain' notTwoCloses rs ∧
    (rs.getLast? = some PathRecord.close →
      closeSubPath (applyOps ops Path.empty) = applyOps ops Path.empty) := by
  obtain ⟨rs0, h0, hhead, hchain⟩ := storeOK_applyOps ops Path.empty storeOK_empty
  have hrs : rs = rs0 := flatRecs_inj (hparse ▸ h0)
  subst hrs
  refine ⟨hchain, fun hlast => ?_⟩
  obtain ⟨rs', hrs'⟩ := List.getLast?_eq_some_iff.mp hlast
  apply closeSubPath_of_getLast
  rw [hparse, hrs', getLast?_flatRecs_concat]
  rfl

/-- C6 witness: `startNewSubPath (0,0)` then `closeSubPath` — the record
    stream move, close has no two consecutive closes, and a second
    `closeSubPath` is a no-op. -/
theorem C6_close_idempotent_witness :
    List.Chain' notTwoCloses [PathRecord.move 0 0, PathRecord.close] ∧
    closeSubPath (applyOps [POp.startNewSubPath 0 0, POp.closeSubPath] Path.empty) =
      applyOps [POp.startNewSubPath 0 0, POp.closeSubPath] Path.empty := by
  have h := C6_close_idempotent [POp.startNewSubPath 0 0, POp.closeSubPath]
      [PathRecord.move 0 0, PathRecord.close] (by decide)
  exact ⟨h.1, h.2 (by decide)⟩

/-- C10: `closeSubPath` on a path with no records leaves it unchanged, and
    every non-empty store reachable by the public builder calls begins with a
    move record. -/
theorem C10_starts_with_move (p : Path) (ops : List POp) :
    (p.elements = [] → closeSubPath p = p) ∧
    ((applyOps ops Path.empty).elements ≠ [] →
      ∃ x y rs, (applyOps ops Path.empty).elements = flatRecs (PathRecord.move x y :: rs)) := by
  refine ⟨closeSubPath_of_nil p, fun hne => ?_⟩
  obtain ⟨rs0, h0, hhead, _⟩ := storeOK_applyOps ops Path.empty storeOK_empty
  cases rs0 with
  | nil => rw [h0] at hne; simp [flatRecs] at hne
  | cons r rs' =>
    obtain ⟨x, y, hr⟩ := hhead r rfl
    exact ⟨x, y, rs', by rw [h0, hr]⟩

/-- C10 witness: `closeSubPath` is a no-op on the empty path, and the store
    built by a lone `lineTo (3, 4)` begins with the implicit move record. -/
theorem C10_starts_with_move_witness :
    closeSubPath Path.empty = Path.empty ∧
    (applyOps [POp.lineTo 3 4] Path.empty).elements ≠ [] ∧
    ∃ x y rs, (applyOps [POp.lineTo 3 4] Path.empty).elements =
      flatRecs (PathRecord.move x y :: rs) :=
  ⟨(C10_starts_with_move Path.empty []).1 rfl, by decide,
    (C10_starts_with_move Path.empty [POp.lineTo 3 4]).2 (by decide)⟩

/-- C2 witness: `startNewSubPath (1, 2)` then `lineTo (5, -3)` on the empty
    path gives bounds x ∈ [1, 5], y ∈ [-3, 2], the exact min/max over the two
    appended points. -/
theorem C2_bounds_invariant_witness :
    POp.clear ∉ [POp.startNewSubPath 1 2, POp.lineTo 5 (-3)] ∧
    opsCoords [POp.startNewSubPath 1 2, POp.lineTo 5 (-3)] Path.empty =
      [((1 : ℚ), (2 : ℚ)), ((5 : ℚ), (-3 : ℚ))] ∧
    (applyOps [POp.startNewSubPath 1 2, POp.lineTo 5 (-3)] Path.empty).pathXMin = 1 ∧
    (applyOps [POp.startNewSubPath 1 2, POp.lineTo 5 (-3)] Path.empty).pathXMax = 5 ∧
    (applyOps [POp.startNewSubPath 1 2, POp.lineTo 5 (-3)] Path.empty).pathYMin = -3 ∧
    (applyOps [POp.startNewSubPath 1 2, POp.lineTo 5 (-3)] Path.empty).pathYMax = 2 := by
  have h := C2_bounds_invariant [POp.startNewSubPath 1 2, POp.lineTo 5 (-3)]
      ((1 : ℚ), (2 : ℚ)) [((5 : ℚ), (-3 : ℚ))] (by decide) (by decide)
  refine ⟨by decide, by decide, ?_, ?_, ?_, ?_⟩
  · rw [h.1]; norm_num [List.foldl]
  · rw [h.2.1]; norm_num [List.foldl]
  · rw [h.2.2.1]; norm_num [List.foldl]
  · rw [h.2.2.2]; norm_num [List.foldl]

/-! ## Binary serialization round-trip (C1) -/

theorem winding_lineTo (p : Path) (x y : ℚ) :
    (lineTo p x y).useNonZeroWinding = p.useNonZeroWinding := by
  unfold lineTo
  dsimp only
  split
  · exact winding_startNewSubPath p 0 0
  · rfl

theorem winding_quadraticTo (p : Path) (x1 y1 x2 y2 : ℚ) :
    (quadraticTo p x1 y1 x2 y2).useNonZeroWinding = p.useNonZeroWinding := by
  unfold quadraticTo
  dsimp only
  split
  · exact winding_startNewSubPath p 0 0
  · rfl

theorem winding_cubicTo (p : Path) (x1 y1 x2 y2 x3 y3 : ℚ) :
    (cubicTo p x1 y1 x2 y2 x3 y3).useNonZeroWinding = p.useNonZeroWinding := by
  unfold cubicTo
  dsimp only
  split
  · exact winding_startNewSubPath p 0 0
  · rfl

theorem winding_closeSubPath (p : Path) :
    (closeSubPath p).useNonZeroWinding = p.useNonZeroWinding := by
  unfold closeSubPath
  split <;> rfl

theorem closeSubPath_of_guard (p : Path) (h1 : p.elements ≠ [])
    (h2 : p.elements.getLast? ≠ some closeSubPathMarker) :
    closeSubPath p = { p with elements := p.elements ++ [closeSubPathMarker] } := by
  unfold closeSubPath
  rw [if_pos ⟨h1, h2⟩]

theorem writeStep_move (x y : ℚ) (l : List ℚ) :
    writeStep moveMarker (x :: y :: l) = ([.ch 'm', .fl x, .fl y], l) := by
  simp [writeStep]

theorem writeStep_line (x y : ℚ) (l : List ℚ) :
    writeStep lineMarker (x :: y :: l) = ([.ch 'l', .fl x, .fl y], l) := by
  norm_num [writeStep, lineMarker, moveMarker]

theorem writeStep_quad (x1 y1 x2 y2 : ℚ) (l : List ℚ) :
    writeStep quadMarker (x1 :: y1 :: x2 :: y2 :: l) =
      ([.ch 'q', .fl x1, .fl y1, .fl x2, .fl y2], l) := by
  norm_num [writeStep, quadMarker, moveMarker, lineMarker]

theorem writeStep_cubic (x1 y1 x2 y2 x3 y3 : ℚ) (l : List ℚ) :
    writeStep cubicMarker (x1 :: y1 :: x2 :: y2 :: x3 :: y3 :: l) =
      ([.ch 'b', .fl x1, .fl y1, .fl x2, .fl y2, .fl x3, .fl y3], l) := by
  norm_num [writeStep, cubicMarker, moveMarker, lineMarker, quadMarker]

theorem writeStep_close (l : List ℚ) :
    writeStep closeSubPathMarker l = ([.ch 'c'], l) := by
  norm_num [writeStep, closeSubPathMarker, moveMarker, lineMarker, quadMarker, cubicMarker]

/-- The element walk of `writePathToStream` on a well-formed flat store emits
    exactly the record-level byte stream. -/
theorem writeElements_flatRecs (rs : List PathRecord) :
    writeElements (flatRecs rs) = writeRecs rs := by
  induction rs with
  | nil => rw [show flatRecs [] = [] from rfl, writeElements, writeRecs]
  | cons r rs ih =>
    cases r with
    | move x y =>
      show writeElements (moveMarker :: x :: y :: flatRecs rs) = _
      rw [writeElements, writeStep_move]
      simp [writeRecs, ih]
    | line x y =>
      show writeElements (lineMarker :: x :: y :: flatRecs rs) = _
      rw [writeElements, writeStep_line]
      simp [writeRecs, ih]
    | quad x1 y1 x2 y2 =>
      show writeElements (quadMarker :: x1 :: y1 :: x2 :: y2 :: flatRecs rs) = _
      rw [writeElements, writeStep_quad]
      simp [writeRecs, ih]
    | cubic x1 y1 x2 y2 x3 y3 =>
      show writeElements (cubicMarker :: x1 :: y1 :: x2 :: y2 :: x3 :: y3 :: flatRecs rs) = _
      rw [writeElements, writeStep_cubic]
      simp [writeRecs, ih]
    | close =>
      show writeElements (closeSubPathMarker :: flatRecs rs) = _
      rw [writeElements, writeStep_close]
      simp [writeRecs, ih]

theorem loadLoop_m (x y : ℚ) (r : List StreamByte) (p : Path) :
    loadLoop (.ch 'm' :: .fl x :: .fl y :: r) p = loadLoop r (startNewSubPath p x y) := by
  rw [loadLoop]
  have hs : loadStep 'm' (.fl x :: .fl y :: r) p = some (startNewSubPath p x y, r) := by
    simp [loadStep]
  rw [hs]

theorem loadLoop_l (x y : ℚ) (r : List StreamByte) (p : Path) :
    loadLoop (.ch 'l' :: .fl x :: .fl y :: r) p = loadLoop r (lineTo p x y) := by
  rw [loadLoop]
  have hs : loadStep 'l' (.fl x :: .fl y :: r) p = some (lineTo p x y, r) := by
    simp [loadStep]
  rw [hs]

theorem loadLoop_q (x1 y1 x2 y2 : ℚ) (r : List StreamByte) (p : Path) :
    loadLoop (.ch 'q' :: .fl x1 :: .fl y1 :: .fl x2 :: .fl y2 :: r) p =
      loadLoop r (quadraticTo p x1 y1 x2 y2) := by
  rw [loadLoop]
  have hs : loadStep 'q' (.fl x1 :: .fl y1 :: .fl x2 :: .fl y2 :: r) p =
      some (quadraticTo p x1 y1 x2 y2, r) := by
    simp [loadStep]
  rw [hs]

theorem loadLoop_b (x1 y1 x2 y2 x3 y3 : ℚ) (r : List StreamByte) (p : Path) :
    loadLoop (.ch 'b' :: .fl x1 :: .fl y1 :: .fl x2 :: .fl y2 :: .fl x3 :: .fl y3 :: r) p =
      loadLoop r (cubicTo p x1 y1 x2 y2 x3 y3) := by
  rw [loadLoop]
  have hs : loadStep 'b' (.fl x1 :: .fl y1 :: .fl x2 :: .fl y2 :: .fl x3 :: .fl y3 :: r) p =
      some (cubicTo p x1 y1 x2 y2 x3 y3, r) := by
    simp [loadStep]
  rw [hs]

theorem loadLoop_c (r : List StreamByte) (p : Path) :
    loadLoop (.ch 'c' :: r) p = loadLoop r (closeSubPath p) := by
  rw [loadLoop]
  have hs : loadStep 'c' r p = some (closeSubPath p, r) := by
    simp [loadStep]
  rw [hs]

theorem loadLoop_n (r : List StreamByte) (p : Path) :
    loadLoop (.ch 'n' :: r) p = loadLoop r { p with useNonZeroWinding := true } := by
  rw [loadLoop]
  have hs : loadStep 'n' r p = some ({ p with useNonZeroWinding := true }, r) := by
    simp [loadStep]
  rw [hs]

theorem loadLoop_z (r : List StreamByte) (p : Path) :
    loadLoop (.ch 'z' :: r) p = loadLoop r { p with useNonZeroWinding := false } := by
  rw [loadLoop]
  have hs : loadStep 'z' r p = some ({ p with useNonZeroWinding := false }, r) := by
    simp [loadStep]
  rw [hs]

theorem loadLoop_e (r : List StreamByte) (p : Path) : loadLoop (.ch 'e' :: r) p = p := by
  rw [loadLoop]
  have hs : loadStep 'e' r p = none := by
    simp [loadStep]
  rw [hs]

/-- Replaying the record-level byte stream of a well-formed record sequence
    (`RecsOK`) onto a path whose flat store is the accumulated prefix appends
    exactly those records and preserves the winding flag. -/
theorem loadLoop_writeRecs {t : List ℚ} {rs : List PathRecord} (hok : RecsOK t rs) :
    ∀ p : Path, p.elements = t →
    (loadLoop (writeRecs rs ++ [.ch 'e']) p).elements = t ++ flatRecs rs ∧
    (loadLoop (writeRecs rs ++ [.ch 'e']) p).useNonZeroWinding = p.useNonZeroWinding := by
  induction hok with
  | nil t =>
    intro p hp
    rw [show writeRecs [] ++ [StreamByte.ch 'e'] = [StreamByte.ch 'e'] from rfl, loadLoop_e]
    exact ⟨by rw [hp]; simp [flatRecs], rfl⟩
  | move t x y rs hrec ih =>
    intro p hp
    rw [show writeRecs (PathRecord.move x y :: rs) ++ [StreamByte.ch 'e'] =
      StreamByte.ch 'm' :: StreamByte.fl x :: StreamByte.fl y ::
        (writeRecs rs ++ [StreamByte.ch 'e']) from rfl, loadLoop_m]
    obtain ⟨h1, h2⟩ := ih (startNewSubPath p x y) (by rw [elements_startNewSubPath, hp])
    refine ⟨?_, ?_⟩
    · rw [h1]; simp [flatRecs, flatRec]
    · rw [h2, winding_startNewSubPath]
  | line t x y rs hne hrec ih =>
    intro p hp
    rw [show writeRecs (PathRecord.line x y :: rs) ++ [StreamByte.ch 'e'] =
      StreamByte.ch 'l' :: StreamByte.fl x :: StreamByte.fl y ::
        (writeRecs rs ++ [StreamByte.ch 'e']) from rfl, loadLoop_l]
    have hne' : p.elements ≠ [] := by rw [hp]; exact hne
    obtain ⟨h1, h2⟩ := ih (lineTo p x y)
      (by rw [lineTo_of_ne_nil p x y hne']; dsimp only; rw [hp])
    refine ⟨?_, ?_⟩
    · rw [h1]; simp [flatRecs, flatRec]
    · rw [h2, winding_lineTo]
  | quad t x1 y1 x2 y2 rs hne hrec ih =>
    intro p hp
    rw [show writeRecs (PathRecord.quad x1 y1 x2 y2 :: rs) ++ [StreamByte.ch 'e'] =
      StreamByte.ch 'q' :: StreamByte.fl x1 :: StreamByte.fl y1 :: StreamByte.fl x2 ::
        StreamByte.fl y2 :: (writeRecs rs ++ [StreamByte.ch 'e']) from rfl, loadLoop_q]
    have hne' : p.elements ≠ [] := by rw [hp]; exact hne
    obtain ⟨h1, h2⟩ := ih (quadraticTo p x1 y1 x2 y2)
      (by rw [quadraticTo_of_ne_nil p x1 y1 x2 y2 hne']; dsimp only; rw [hp])
    refine ⟨?_, ?_⟩
    · rw [h1]; simp [flatRecs, flatRec]
    · rw [h2, winding_quadraticTo]
  | cubic t x1 y1 x2 y2 x3 y3 rs hne hrec ih =>
    intro p hp
    rw [show writeRecs (PathRecord.cubic x1 y1 x2 y2 x3 y3 :: rs) ++ [StreamByte.ch 'e'] =
      StreamByte.ch 'b' :: StreamByte.fl x1 :: StreamByte.fl y1 :: StreamByte.fl x2 ::
        StreamByte.fl y2 :: StreamByte.fl x3 :: StreamByte.fl y3 ::
        (writeRecs rs ++ [StreamByte.ch 'e']) from rfl, loadLoop_b]
    have hne' : p.elements ≠ [] := by rw [hp]; exact hne
    obtain ⟨h1, h2⟩ := ih (cubicTo p x1 y1 x2 y2 x3 y3)
      (by rw [cubicTo_of_ne_nil p x1 y1 x2 y2 x3 y3 hne']; dsimp only; rw [hp])
    refine ⟨?_, ?_⟩
    · rw [h1]; simp [flatRecs, flatRec]
    · rw [h2, winding_cubicTo]
  | close t rs hne hlast hrec ih =>
    intro p hp
    rw [show writeRecs (PathRecord.close :: rs) ++ [StreamByte.ch 'e'] =
      StreamByte.ch 'c' :: (writeRecs rs ++ [StreamByte.ch 'e']) from rfl, loadLoop_c]
    have hne' : p.elements ≠ [] := by rw [hp]; exact hne
    have hlast' : p.elements.getLast? ≠ some closeSubPathMarker := by rw [hp]; exact hlast
    obtain ⟨h1, h2⟩ := ih (closeSubPath p)
      (by rw [closeSubPath_of_guard p hne' hlast']; dsimp only; rw [hp])
    refine ⟨?_, ?_⟩
    · rw [h1]; simp [flatRecs, flatRec]
    · rw [h2, winding_closeSubPath]

/-- C1 (amended): for every path whose record stream is well formed and in
    which every close record was appended onto a non-empty store whose last
    element differs from the close marker value (`RecsOK` — automatic for the
    primitive builder calls, violated by `addRectangle` only when a rectangle
    edge coordinate equals the sentinel 100005), encoding with
    `writePathToStream` and replaying the bytes through `loadPathFromStream`
    into a freshly constructed empty path reproduces the element stream and
    the `useNonZeroWinding` flag exactly, whatever the bound fields are. -/
theorem C1_roundtrip_amended (rs : List PathRecord) (b1 b2 b3 b4 : ℚ) (w : Bool)
    (hok : RecsOK [] rs) :
    (loadPathFromStream (writePathToStream ⟨flatRecs rs, b1, b2, b3, b4, w⟩)
        Path.empty).elements = flatRecs rs ∧
    (loadPathFromStream (writePathToStream ⟨flatRecs rs, b1, b2, b3, b4, w⟩)
        Path.empty).useNonZeroWinding = w := by
  unfold loadPathFromStream writePathToStream
  dsimp only
  rw [writeElements_flatRecs]
  cases w with
  | true =>
    rw [if_pos rfl, loadLoop_n]
    obtain ⟨h1, h2⟩ := loadLoop_writeRecs hok { Path.empty with useNonZeroWinding := true } rfl
    exact ⟨by rw [h1]; simp, by rw [h2]⟩
  | false =>
    rw [if_neg (by simp), loadLoop_z]
    obtain ⟨h1, h2⟩ := loadLoop_writeRecs hok { Path.empty with useNonZeroWinding := false } rfl
    exact ⟨by rw [h1]; simp, by rw [h2]⟩

/-- C1 witness: the record stream move (1,2), line (3,4), close — built by
    `startNewSubPath`, `lineTo`, `closeSubPath` — round-trips exactly. -/
theorem C1_roundtrip_amended_witness :
    (loadPathFromStream (writePathToStream
        ⟨flatRecs [PathRecord.move 1 2, PathRecord.line 3 4, PathRecord.close],
          0, 0, 0, 0, false⟩) Path.empty).elements =
      flatRecs [PathRecord.move 1 2, PathRecord.line 3 4, PathRecord.close] ∧
    (loadPathFromStream (writePathToStream
        ⟨flatRecs [PathRecord.move 1 2, PathRecord.line 3 4, PathRecord.close],
          0, 0, 0, 0, false⟩) Path.empty).useNonZeroWinding = false :=
  C1_roundtrip_amended [PathRecord.move 1 2, PathRecord.line 3 4, PathRecord.close]
    0 0 0 0 false
    (RecsOK.move [] 1 2 _ (RecsOK.line _ 3 4 _ (by decide)
      (RecsOK.close _ _ (by decide) (by decide) (RecsOK.nil _))))

/-- C1 counterexample: `addRectangle (0, 0, 1, 100005)` is a Builder API call
    whose record stream begins with a move and holds no consecutive closes,
    yet its bottom edge coordinate y + h = 100005 equals the close marker
    value.  The encoder (record-synchronised) writes the close byte, but on
    replay `closeSubPath` sees that sentinel as the last stored element and
    refuses to append the close record, so the reloaded element stream is one
    record shorter than the original: the round-trip claim fails on this
    builder-constructed path. -/
theorem C1_counterexample :
    (loadPathFromStream (writePathToStream (addRectangle Path.empty 0 0 1 100005))
        Path.empty).elements ≠ (addRectangle Path.empty 0 0 1 100005).elements := by
  have h0 : addRectangle Path.empty 0 0 1 100005 =
      ⟨flatRecs [PathRecord.move 0 closeSubPathMarker, PathRecord.line 0 0,
        PathRecord.line 1 0, PathRecord.line 1 closeSubPathMarker, PathRecord.close],
        0, 1, 0, closeSubPathMarker, true⟩ := by
    norm_num [addRectangle, Path.empty, flatRecs, flatRec, closeSubPathMarker]
  rw [h0]
  unfold loadPathFromStream writePathToStream
  dsimp only
  rw [writeElements_flatRecs, if_pos rfl]
  rw [loadLoop_n]
  rw [show writeRecs [PathRecord.move 0 closeSubPathMarker, PathRecord.line 0 0,
      PathRecord.line 1 0, PathRecord.line 1 closeSubPathMarker, PathRecord.close] ++
        [StreamByte.ch 'e'] =
    StreamByte.ch 'm' :: StreamByte.fl 0 :: StreamByte.fl closeSubPathMarker ::
      StreamByte.ch 'l' :: StreamByte.fl 0 :: StreamByte.fl 0 ::
      StreamByte.ch 'l' :: StreamByte.fl 1 :: StreamByte.fl 0 ::
      StreamByte.ch 'l' :: StreamByte.fl 1 :: StreamByte.fl closeSubPathMarker ::
      StreamByte.ch 'c' :: [StreamByte.ch 'e'] from rfl]
  rw [loadLoop_m, loadLoop_l, loadLoop_l, loadLoop_l, loadLoop_c, loadLoop_e]
  have hP4 : (lineTo (lineTo (lineTo (startNewSubPath
      { Path.empty with useNonZeroWinding := true } 0 closeSubPathMarker) 0 0) 1 0)
        1 closeSubPathMarker).elements =
      [moveMarker, 0, closeSubPathMarker, lineMarker, 0, 0, lineMarker, 1, 0,
        lineMarker, 1, closeSubPathMarker] := by
    simp [lineTo, startNewSubPath, Path.empty]
  rw [closeSubPath_of_getLast _ (by rw [hP4]; rfl)]
  rw [hP4]
  simp [flatRecs, flatRec]

end Juce
